import Mathlib

/-!
Verification development for the Telegram RSS news bot (src/main.py).

The core dispatch engine of `check_news_job` (lines 432-586) is embedded
shallowly: external collaborators (HTTP feed fetch, the Telegram channel,
the GenAI and OpenAI backends, timezone conversion) are modelled as
oracle functions carried in an `Env` record, and the per-run mutable
state (the persistent ledger `last_sent_links`, the `daily_sent` record
and the run-scoped dedupe set `sent_this_run`) is threaded explicitly as
a `RunState`.  A ghost field `delivered` records, for specification
purposes only, the (feed URL, entry identifier) pairs whose delivery was
confirmed, in order; it corresponds to the successful
`send_telegram_message` calls of lines 569-577 and has no counterpart in
the Python state.

Machine-level caveats of the embedding, noted once here:
* Python truthiness of strings/None is modelled by `truthyOpt`.
* `time.struct_time` values are modelled as abstract `Int` timestamps;
  `mktime`/`fromtimestamp`/`astimezone`/`.date()` of
  `entry_published_date_in_tz` (lines 169-182) collapse to the abstract
  `Env.toLocalDate : Int → Int`, and local calendar days are `Int`s.
* `date.isoformat()` is modelled by `toString` of the abstract day
  (an injective stand-in used only inside message text and as the
  `daily_sent` key).
* String primitives (`strip`, `split`, `join`, `lower`, `replace`,
  decimal rendering) are given structural, kernel-reducible
  implementations (`pyStrip`, `pySplit`, `pyJoin`, `pyLower`,
  `pyReplace`, `intToStr`) with Python semantics on the alphabets in
  use; `str.splitlines()` on already-stripped blocks is a split on
  `"\n"`, and `html.unescape` is modelled on the five entities that
  `html.escape` produces.
* `save_data` persistence, logging and `time.sleep` are I/O and are not
  modelled; persistence is the returned state.
-/

/-- Python truthiness for an optional string: `None` and `""` are falsy. -/
def truthyOpt : Option String → Option String
  | none => none
  | some s => if s = "" then none else some s

/-- Sublist scan for the substring test. -/
def strContainsAux (needle : List Char) : List Char → Bool
  | [] => needle.isEmpty
  | c :: r => needle.isPrefixOf (c :: r) || strContainsAux needle r

/-- Python `kw in text` substring test. -/
def strContains (hay kw : String) : Bool :=
  strContainsAux kw.data hay.data

/-- Python whitespace for `str.strip()`. -/
def wsp (c : Char) : Bool :=
  c.toNat = 32 || c.toNat = 9 || c.toNat = 10 || c.toNat = 13
    || c.toNat = 11 || c.toNat = 12

/-- `str.strip()` on a character list. -/
def pyStripL (l : List Char) : List Char :=
  ((l.dropWhile wsp).reverse.dropWhile wsp).reverse

/-- Python `str.strip()` (structural, kernel-reducible). -/
def pyStrip (s : String) : String :=
  ⟨pyStripL s.data⟩

/-- Fuelled worker for `str.split(sep)` with a fixed non-empty
separator: scan left to right, cut at each non-overlapping separator
occurrence.  Fuel bounds the scan; one character (at least) is consumed
per step, so fuel beyond the input length makes the exhausted branch
unreachable. -/
def splitOnAuxL (sep : List Char) : Nat → List Char → List Char →
    List (List Char)
  | _, [], acc => [acc.reverse]
  | 0, l, acc => [acc.reverse ++ l]
  | fuel + 1, c :: r, acc =>
    if sep.isPrefixOf (c :: r) then
      acc.reverse :: splitOnAuxL sep fuel ((c :: r).drop sep.length) []
    else splitOnAuxL sep fuel r (c :: acc)

/-- `str.split(sep)` for a non-empty separator, on character lists. -/
def splitOnL (l sep : List Char) : List (List Char) :=
  splitOnAuxL sep (l.length + 1) l []

/-- Python `s.split(sep)` (structural, kernel-reducible). -/
def pySplit (s sep : String) : List String :=
  (splitOnL s.data sep.data).map (fun l => ⟨l⟩)

/-- `sep.join(parts)` on strings (structural). -/
def pyJoin (sep : String) : List String → String
  | [] => ""
  | [p] => p
  | p :: ps => p ++ sep ++ pyJoin sep ps

/-- Python `str.lower()`; ASCII case mapping, which agrees with Python
on the keyword alphabets in use here (Persian letters are unaffected by
either). -/
def pyLower (s : String) : String :=
  ⟨s.data.map Char.toLower⟩

/-- Python `s.replace(old, new)` for a non-empty `old` (split then
join). -/
def pyReplace (s old new : String) : String :=
  pyJoin new (pySplit s old)

/-- Decimal digits of a natural number (fuelled). -/
def natToStrAux : Nat → Nat → List Char
  | 0, _ => []
  | _ + 1, 0 => []
  | fuel + 1, n => natToStrAux fuel (n / 10) ++ [Char.ofNat (48 + n % 10)]

/-- Decimal rendering of a natural number. -/
def natToStr (n : Nat) : List Char :=
  if n = 0 then [Char.ofNat 48] else natToStrAux (n + 1) n

/-- Decimal rendering of an integer (kernel-reducible `toString`). -/
def intToStr (d : Int) : String :=
  match d with
  | Int.ofNat n => ⟨natToStr n⟩
  | Int.negSucc n => ⟨Char.ofNat 45 :: natToStr (n + 1)⟩

/-- `html_lib.escape` (quote=True): the five-entity character map.
The Python implementation chains `str.replace` starting with `&`, which
is equivalent to this single left-to-right character map. -/
def escChar (c : Char) : String :=
  if c.toNat = 38 then "&amp;"
  else if c.toNat = 60 then "&lt;"
  else if c.toNat = 62 then "&gt;"
  else if c.toNat = 34 then "&quot;"
  else if c.toNat = 39 then "&#x27;"
  else String.singleton c

/-- `html_lib.escape` on a whole string. -/
def htmlEscape (s : String) : String :=
  ⟨(s.data.map (fun c => (escChar c).data)).foldr (fun a b => a ++ b) []⟩

/-- One scanning step of `html_lib.unescape`, restricted to the five
entities produced by `htmlEscape` (the general entity table of Python's
`html.unescape` is not needed by any claim). -/
def unescAux : List Char → List Char
  | [] => []
  | c :: r =>
    if c.toNat = 38 then
      if r.take 4 = ("amp;".data) then Char.ofNat 38 :: unescAux (r.drop 4)
      else if r.take 3 = ("lt;".data) then Char.ofNat 60 :: unescAux (r.drop 3)
      else if r.take 3 = ("gt;".data) then Char.ofNat 62 :: unescAux (r.drop 3)
      else if r.take 5 = ("quot;".data) then Char.ofNat 34 :: unescAux (r.drop 5)
      else if r.take 5 = ("#x27;".data) then Char.ofNat 39 :: unescAux (r.drop 5)
      else c :: unescAux r
    else c :: unescAux r
termination_by l => l.length
decreasing_by
  all_goals simp [List.length_drop]
  all_goals omega

/-- `html_lib.unescape`, modelled on the entities of `htmlEscape`. -/
def htmlUnescape (s : String) : String :=
  ⟨unescAux s.data⟩

/-- Helper for `clean_html`: after a `<`, find the text after the first
`>` on the same line (the regex `<.*?>` cannot cross a newline). -/
def findGt : List Char → Option (List Char)
  | [] => none
  | c :: r =>
    if c.toNat = 62 then some r
    else if c.toNat = 10 then none
    else findGt r

/-- Fuelled scanner for `re.sub(r'<.*?>', '', s)` (lines 164-167).
Each step consumes at least one character of the list, so fuel equal to
the initial length makes the fuel-exhausted branch unreachable. -/
def cleanHtmlAux : Nat → List Char → List Char
  | 0, l => l
  | _ + 1, [] => []
  | fuel + 1, c :: r =>
    if c.toNat = 60 then
      match findGt r with
      | some r2 => cleanHtmlAux fuel r2
      | none => c :: cleanHtmlAux fuel r
    else c :: cleanHtmlAux fuel r

/-- `clean_html` (lines 164-167): strip `<...>` tag spans. -/
def clean_html (s : String) : String :=
  ⟨cleanHtmlAux s.data.length s.data⟩

/-- `[p.strip() for p in raw.split("\n\n") if p.strip()]` — the shared
blank-line block decomposition of both AI output splitters. -/
def pyParts (raw : String) : List String :=
  ((pySplit raw "\n\n").map pyStrip).filter (fun p => p ≠ "")

/-- The splitter applied to GenAI raw output inside
`process_article_with_ai` (lines 373-378).  `none` models the fact that
when the block list is empty the Python code returns nothing and control
falls through to the OpenAI stage. -/
def genaiSplit (raw : String) : Option (String × String) :=
  match pyParts raw with
  | [] => none
  | [p] =>
    let lines := pySplit p "\n"
    let e := pyStrip (pyJoin "\n" lines.tail)
    some (pyStrip (lines.headD ""), if e = "" then "(توضیحی فراهم نشد)" else e)
  | p :: ps => some (p, pyJoin "\n\n" ps)

/-- The splitter applied to OpenAI raw output inside `openai_generate`
(lines 324-331); on an empty block list it returns the original title
with a fixed note instead of falling through. -/
def openaiSplitPair (title raw : String) : String × String :=
  match pyParts raw with
  | [] => (title, "(OpenAI responded empty)")
  | [p] =>
    let lines := pySplit p "\n"
    let e := pyStrip (pyJoin "\n" lines.tail)
    (pyStrip (lines.headD ""), if e = "" then "(توضیحی فراهم نشد)" else e)
  | p :: ps => (p, pyJoin "\n\n" ps)

/-- `detect_topic_and_emoji` (lines 96-117): first keyword group that
matches the lowercased text wins, in source order. -/
def detect_topic_and_emoji (text : String) : Option String :=
  let tl := pyLower text
  let astro := ["نجوم", "اختر", "کیهان", "کهکشان", "سیاهچاله", "astro",
    "astronomy", "cosmology", "cosmos", "astrophys", "galaxy"]
  let physics := ["فیزیک", "physics", "relativity", "thermodynamics",
    "particle", "field"]
  let quantum := ["کوانتوم", "کوآنتم", "quantum", "quantum mechanics",
    "quantum physics"]
  let philosScience := ["فلسفه علم", "philosophy of science",
    "philosophy science"]
  let philosMind := ["فلسفه ذهن", "philosophy of mind", "consciousness",
    "ذهن"]
  let epist := ["معرفت", "معرفت‌شناسی", "معرفت شناسی", "epistemology",
    "knowledge"]
  let mappings := [(astro, "🔵"), (quantum, "⚪"), (physics, "⚫"),
    (philosScience, "🟠"), (philosMind, "🟠"), (epist, "🟠")]
  (mappings.find? (fun gm => gm.1.any (fun kw => strContains tl kw))).map
    (fun gm => gm.2)

/-- Outcome of one HTTP call to the Telegram `sendMessage` endpoint, as
far as `send_telegram_message` can observe it: a 200 response
(`raise_for_status` passes), a client-side rejection of the payload
(e.g. 400 for malformed markup), or a network/other error.  The Python
function returns a plain bool, collapsing the last two. -/
inductive ChanResp
  | ok
  | badRequest
  | networkError
deriving DecidableEq, Repr

/-- The environment of one run: configuration, clock readings taken at
the start of `check_news_job` (lines 439-442, 506), and the external
collaborators as oracles. -/
structure Env where
  today : Int
  secondsSinceMidnight : Nat
  graceHours : Nat
  maxEntriesPerFeed : Nat
  toLocalDate : Int → Int
  geminiModelEnv : Option String
  genai : String → String → Option String
  openaiContent : String → Option String
  channel : String → Option String → ChanResp

/-- One feed entry as the feed source adapter returns it; absent
attributes are `none`. -/
structure Entry where
  id : Option String := none
  guid : Option String := none
  link : Option String := none
  title : Option String := none
  summary : Option String := none
  description : Option String := none
  published_parsed : Option Int := none
  updated_parsed : Option Int := none
deriving DecidableEq, Repr

/-- Line 487: `getattr(entry,"id",None) or getattr(entry,"guid",None) or
getattr(entry,"link",None)` with Python truthiness. -/
def entryIdOf (e : Entry) : Option String :=
  match truthyOpt e.id with
  | some i => some i
  | none =>
    match truthyOpt e.guid with
    | some i => some i
    | none => truthyOpt e.link

/-- `entry_published_parsed or entry.updated_parsed` feeding
`entry_published_date_in_tz` (lines 169-182); a present struct_time is
always truthy, and the timezone conversion is the abstract
`Env.toLocalDate`. -/
def entry_published_date_in_tz (env : Env) (e : Entry) : Option Int :=
  match e.published_parsed <|> e.updated_parsed with
  | none => none
  | some t => some (env.toLocalDate t)

/-- Lines 499-508: the recency decision for a local publication day. -/
def sendFlagOf (env : Env) (pubd : Int) : Bool :=
  if pubd = env.today then true
  else if pubd = env.today - 1 then
    decide (env.secondsSinceMidnight ≤ env.graceHours * 3600)
  else false

/-- `date.isoformat()` stand-in for abstract days. -/
def dateIso (d : Int) : String := intToStr d

/-- Line 536-537: `summary or description`, HTML not yet stripped. -/
def summaryTextOf (e : Entry) : String :=
  let s := e.summary.getD ""
  if s = "" then e.description.getD "" else s

/-- The Gemini prompt of `genai_generate` (lines 238-244). -/
def genaiPrompt (title summary : String) : String :=
  "You are an expert science communicator. Perform two steps based on the English text:\n"
    ++ "1) Translate ONLY the title to fluent, natural Persian (one short line).\n"
    ++ "2) Then explain the core concept in a few fluent, conceptual Persian sentences (2-4 sentences), using clear, natural wording (روان‌تر) suitable for an advanced student.\n\n"
    ++ "Title: " ++ title ++ "\nSummary: " ++ summary ++ "\n\n"
    ++ "Output exactly: Persian title line, blank line, then the explanation."

/-- The fixed candidate model list (lines 84-90). -/
def DEFAULT_GENAI_MODELS : List String :=
  ["gemini-2.5-pro", "gemini-2.5-flash", "gemini-1.5-flash",
   "gemini-1.5-pro", "gemini-pro"]

/-- Lines 245-248: optional `GEMINI_MODEL` env entry prepended (when
truthy) to the default preference order. -/
def genaiCandidates (env : Env) : List String :=
  (truthyOpt env.geminiModelEnv).toList ++ DEFAULT_GENAI_MODELS

/-- The model loop of `genai_generate` (lines 250-270): skip falsy model
ids, return the first success, treat each failure as non-fatal; `none`
models the final `raise` of line 271. -/
def genaiTry (oracle : String → String → Option String) (prompt : String) :
    List String → Option String
  | [] => none
  | m :: ms =>
    if m = "" then genaiTry oracle prompt ms
    else
      match oracle m prompt with
      | some t => some t
      | none => genaiTry oracle prompt ms

/-- `genai_generate` (lines 233-271); `none` = raised. -/
def genai_generate (env : Env) (title summary : String) : Option String :=
  genaiTry env.genai (genaiPrompt title summary) (genaiCandidates env)

/-- The user content string of `openai_generate` (line 306). -/
def openaiUserContent (title summary : String) : String :=
  "Title: " ++ title ++ "\nSummary: " ++ summary

/-- `openai_generate` (lines 296-363); the per-attempt retry loop is
collapsed into the content oracle (`none` = every attempt raised, which
surfaces as the final `raise`); a successful completion's content is
split by the shared contract, lines 324-331. -/
def openai_generate (env : Env) (title summary : String) :
    Option (String × String) :=
  (env.openaiContent (openaiUserContent title summary)).map
    (fun content => openaiSplitPair title content)

/-- The degraded substitute of line 392. -/
def aiFallback (title : String) : String × String × String :=
  (htmlEscape title, "(پردازش AI ناموفق بود)", "fallback")

/-- The OpenAI stage of `process_article_with_ai` (lines 382-392):
line 387 requires a truthy title and substitutes a default explanation
for a falsy one. -/
def openaiStage (env : Env) (title summary : String) :
    String × String × String :=
  match openai_generate env title summary with
  | some p =>
    if p.1 = "" then aiFallback title
    else (p.1, (if p.2 = "" then "(بدون توضیح)" else p.2), "openai")
  | none => aiFallback title

/-- `process_article_with_ai` (lines 366-392): GenAI first; fall through
to OpenAI when GenAI raises, returns falsy output, or returns output
with no non-blank block; final degraded substitute. -/
def process_article_with_ai (env : Env) (title summary : String) :
    String × String × String :=
  match genai_generate env title summary with
  | some raw =>
    if raw = "" then openaiStage env title summary
    else
      match genaiSplit raw with
      | some p => (p.1, p.2, "genai")
      | none => openaiStage env title summary
  | none => openaiStage env title summary

/-- `send_telegram_message` (lines 185-206): `True` exactly on a 200
response; bot-token/chat-id configuration is part of the channel
oracle. -/
def send_telegram_message (env : Env) (text : String)
    (parseMode : Option String) : Bool :=
  env.channel text parseMode = ChanResp.ok

/-- Lines 569-572: attempt with HTML formatting, then one retry without
`parse_mode` on the unescaped content whenever the first attempt was not
confirmed. -/
def deliverWithFallback (env : Env) (message : String) : Bool :=
  let s1 := send_telegram_message env message (some "HTML")
  if s1 then s1
  else send_telegram_message env (htmlUnescape message) none

/-- Ghost observation of the same lines: the list of (text, parse_mode)
delivery attempts actually made for a message. -/
def deliveryAttempts (env : Env) (message : String) :
    List (String × Option String) :=
  if send_telegram_message env message (some "HTML") then
    [(message, some "HTML")]
  else
    [(message, some "HTML"), (htmlUnescape message, none)]

/-- Association-list lookup, modelling Python `dict.get`. -/
def alookup {κ α : Type} [DecidableEq κ] : List (κ × α) → κ → Option α
  | [], _ => none
  | (k, v) :: r, key => if k = key then some v else alookup r key

/-- Association-list update, modelling Python `dict[k] = v`. -/
def aupdate {κ α : Type} [DecidableEq κ] :
    List (κ × α) → κ → α → List (κ × α)
  | [], k, v => [(k, v)]
  | (k1, v1) :: r, k, v =>
    if k1 = k then (k, v) :: r else (k1, v1) :: aupdate r k v

/-- The mutable state of one run of `check_news_job`; `delivered` is the
ghost delivery log described in the header comment. -/
structure RunState where
  last_sent_links : List (String × String)
  daily_sent : List (Int × List (String × Option String))
  sent_this_run : List String
  delivered : List (String × String)
deriving DecidableEq, Repr

/-- `add_daily_sent` (lines 395-401), keyed by the abstract day. -/
def add_daily_sent (ds : List (Int × List (String × Option String)))
    (d : Int) (titleFa : String) (link : Option String) :
    List (Int × List (String × Option String)) :=
  aupdate ds d ((alookup ds d).getD [] ++ [(titleFa, link)])

/-- The state change of a confirmed delivery (lines 574-581). -/
def recordDelivery (st : RunState) (url eid : String) (pubd : Int)
    (titleFa : String) (link : Option String) : RunState :=
  { last_sent_links := aupdate st.last_sent_links url eid
    daily_sent := add_daily_sent st.daily_sent pubd titleFa link
    sent_this_run := eid :: st.sent_this_run
    delivered := st.delivered ++ [(url, eid)] }

/-- Lines 535-538: the combined text fed to the topic filter, with the
summary HTML-stripped. -/
def combinedTextOf (e : Entry) : String :=
  "Title: " ++ (e.title.getD "(no title)") ++ ". Summary: "
    ++ clean_html (summaryTextOf e)

/-- Line 553: the AI pipeline applied to an entry's title and stripped
summary. -/
def aiOf (env : Env) (e : Entry) : String × String × String :=
  process_article_with_ai env (e.title.getD "(no title)")
    (clean_html (summaryTextOf e))

/-- Lines 558-566: the rendered rich-text message for an entry. -/
def messageFor (env : Env) (e : Entry) (pubd : Int) (emoji : String) :
    String :=
  let ai := aiOf env e
  let message0 := emoji ++ " <b>" ++ htmlEscape ai.1 ++ "</b>\n\n"
    ++ pyReplace (htmlEscape ai.2.1) "\n" "<br>"
    ++ "\n\n🕘 منتشر شده: " ++ dateIso pubd
  match truthyOpt e.link with
  | some l =>
    message0 ++ "\n\n🔗 <a href=\"" ++ htmlEscape l
      ++ "\">لینک مقاله اصلی</a>"
  | none => message0

/-- Lines 530-584 (the part of the entry loop after the boundary logic):
run-scoped dedupe, topic allowlist, AI processing, message build,
delivery with degradation, and the state advance on confirmation.
`seenLast` arrives already updated by the boundary logic. -/
def afterBoundaryStep (env : Env) (url : String) (lastId : Option String)
    (seenLast : Bool) (st : RunState) (e : Entry) (eid : String)
    (pubd : Int) : Bool × RunState :=
  if st.sent_this_run.contains eid then (seenLast, st)
  else
    match detect_topic_and_emoji (combinedTextOf e) with
    | none =>
      -- line 545-546 (unreachable with seen_last already true, kept for
      -- fidelity)
      if !seenLast && lastId = some eid then (true, st) else (seenLast, st)
    | some emoji =>
      if deliverWithFallback env (messageFor env e pubd emoji) then
        (seenLast,
          recordDelivery st url eid pubd (aiOf env e).1 (truthyOpt e.link))
      else (seenLast, st)

/-- Lines 486-584: one entry of the oldest-first window.  The
`¬send_flag` branch faithfully reproduces the fall-through of
lines 510-519: when the boundary identifier is matched there, execution
continues into the send path instead of skipping. -/
def stepEntry (env : Env) (url : String) (lastId : Option String)
    (acc : Bool × RunState) (e : Entry) : Bool × RunState :=
  let seenLast := acc.1
  let st := acc.2
  match entryIdOf e with
  | none => (seenLast, st)
  | some eid =>
    match entry_published_date_in_tz env e with
    | none => (seenLast, st)
    | some pubd =>
      if sendFlagOf env pubd then
        if !seenLast then
          if lastId = some eid then (true, st) else (seenLast, st)
        else afterBoundaryStep env url lastId true st e eid pubd
      else
        if !seenLast then
          if lastId = some eid then
            afterBoundaryStep env url lastId true st e eid pubd
          else (seenLast, st)
        else (seenLast, st)

/-- The entry loop over an oldest-first list. -/
def processFeedEntries (env : Env) (url : String) (lastId : Option String)
    (acc : Bool × RunState) (es : List Entry) : Bool × RunState :=
  es.foldl (stepEntry env url lastId) acc

/-- Lines 480-481: the retrieved window in traversal (oldest-first)
order. -/
def windowOf (env : Env) (entries : List Entry) : List Entry :=
  (entries.take env.maxEntriesPerFeed).reverse

/-- Lines 473-584 for one feed URL: skip an unavailable/empty feed,
slice and reverse the window, read the boundary, walk the entries. -/
def processFeed (env : Env) (entries : List Entry) (url : String)
    (st : RunState) : RunState :=
  if entries = [] then st
  else
    let lastId := alookup st.last_sent_links url
    let seen0 := (truthyOpt lastId).isNone
    (processFeedEntries env url lastId (seen0, st) (windowOf env entries)).2

/-- Lines 464-471: duplicate URLs collapsed preserving first
occurrence. -/
def dedupFirstAux (seen : List String) : List String → List String
  | [] => []
  | u :: rest =>
    if seen.contains u then dedupFirstAux seen rest
    else u :: dedupFirstAux (u :: seen) rest

/-- `filtered_urls` of lines 464-471. -/
def dedupFirst (urls : List String) : List String :=
  dedupFirstAux [] urls

/-- The feed loop of `check_news_job` (lines 432-586) over a feed
snapshot.  The nightly-summary step (lines 444-451) touches only
`last_summary_date` and sends one admin message; it reads and writes
none of the state the claims are about and is omitted. -/
def check_news_run (env : Env) (snap : String → List Entry)
    (urls : List String) (st : RunState) : RunState :=
  (dedupFirst urls).foldl (fun s u => processFeed env (snap u) u s) st

/-- Run-start state: ledger loaded from the DB, empty dedupe set, empty
ghost log (`daily_sent` carried over as loaded). -/
def initialState (ledger0 : List (String × String))
    (daily0 : List (Int × List (String × Option String))) : RunState :=
  { last_sent_links := ledger0
    daily_sent := daily0
    sent_this_run := []
    delivered := [] }

/-! ### Specification-side devices

The following definitions are proof devices, not translations of source
lines: `pureStep`/`pureRun` recompute the control decisions of
`stepEntry` as a function of the entry alone, valid (by the simulation
lemmas below) whenever the channel always confirms and the run-scoped
dedupe set cannot interfere. -/

/-- Genai stage outcome of `process_article_with_ai` as an observable:
`some` exactly when the primary backend produced usable, splittable
output. -/
def genaiPair (env : Env) (t s : String) : Option (String × String) :=
  match genai_generate env t s with
  | none => none
  | some raw => if raw = "" then none else genaiSplit raw

/-- The truthy identifiers of a list of entries, in order. -/
def truthyIdsOf (es : List Entry) : List String :=
  es.filterMap entryIdOf

/-- Decision part of `afterBoundaryStep`, ignoring dedupe and channel:
new seen-flag and whether the entry would be delivered. -/
def pureAfter (e : Entry) : Bool × Bool :=
  match detect_topic_and_emoji (combinedTextOf e) with
  | none => (true, false)
  | some _ => (true, true)

/-- Decision part of `stepEntry`, ignoring dedupe and channel. -/
def pureStep (env : Env) (lastId : Option String) (sl : Bool)
    (e : Entry) : Bool × Bool :=
  match entryIdOf e with
  | none => (sl, false)
  | some eid =>
    match entry_published_date_in_tz env e with
    | none => (sl, false)
    | some pubd =>
      if sendFlagOf env pubd then
        if !sl then
          (if lastId = some eid then (true, false) else (sl, false))
        else pureAfter e
      else
        if !sl then
          if lastId = some eid then pureAfter e else (sl, false)
        else (sl, false)

/-- Decision part of the whole entry loop: final seen-flag and the list
of entries that would be delivered, in order. -/
def pureRun (env : Env) (lastId : Option String) :
    Bool → List Entry → Bool × List Entry
  | sl, [] => (sl, [])
  | sl, e :: es =>
    let p := pureStep env lastId sl e
    let r := pureRun env lastId p.1 es
    (r.1, if p.2 then e :: r.2 else r.2)

/-- The state advance of one confirmed delivery, recomputed from the
entry. -/
def deliverUpd (env : Env) (url : String) (st : RunState) (e : Entry) :
    RunState :=
  match entryIdOf e, entry_published_date_in_tz env e with
  | some eid, some pubd =>
    recordDelivery st url eid pubd (aiOf env e).1 (truthyOpt e.link)
  | _, _ => st

/-- Replay a list of confirmed deliveries onto a state. -/
def applyDelivs (env : Env) (url : String) (st : RunState)
    (ds : List Entry) : RunState :=
  ds.foldl (deliverUpd env url) st

/-- All truthy identifiers appearing in the retrieved windows of a URL
list, concatenated in processing order. -/
def allWindowIds (env : Env) (snap : String → List Entry) :
    List String → List String
  | [] => []
  | u :: us => truthyIdsOf (windowOf env (snap u)) ++ allWindowIds env snap us

/-- The dedupe invariant: delivered identifiers are distinct and all of
them are in the dedupe set. -/
def DedupInv (st : RunState) : Prop :=
  (st.delivered.map Prod.snd).Nodup ∧
    ∀ i ∈ st.delivered.map Prod.snd, i ∈ st.sent_this_run

/-- The conservative-skip run invariant for a fixed feed `u` and
boundary `v`. -/
def LostBoundaryInv (u v : String) (st : RunState) : Prop :=
  alookup st.last_sent_links u = some v ∧
    st.delivered.filter (fun p => p.1 == u) = []

/-- A feed is second-run-quiescent for ledger value `v`: processing it
from any state whose ledger maps the feed to `v` and whose dedupe set is
empty leaves the state unchanged. -/
def Run2Ready (env : Env) (snap : String → List Entry) (u : String)
    (v : Option String) : Prop :=
  ∀ st : RunState, alookup st.last_sent_links u = v →
    st.sent_this_run = [] → processFeed env (snap u) u st = st

/-! ### Concrete fixtures for witnesses and counterexamples -/

/-- A base test environment: local day 100, 02:00 local time, all
deliveries confirmed, both generation backends failing. -/
def envT : Env :=
  { today := 100
    secondsSinceMidnight := 7200
    graceHours := 6
    maxEntriesPerFeed := 20
    toLocalDate := fun t => t
    geminiModelEnv := none
    genai := fun _ _ => none
    openaiContent := fun _ => none
    channel := fun _ _ => ChanResp.ok }

/-- An entry published three local days ago whose identifier will be
used as a ledger boundary. -/
def staleBoundaryEntry : Entry :=
  { id := some "B", link := some "http://x", title := some "quantum news",
    summary := some "", published_parsed := some 97 }

/-- A recent on-topic entry with identifier `X` (shared across feeds in
the idempotence counterexample). -/
def xEntry : Entry :=
  { id := some "X", title := some "physics a", published_parsed := some 100 }

/-- A recent on-topic entry with identifier `W`. -/
def wEntry : Entry :=
  { id := some "W", title := some "physics w", published_parsed := some 100 }

/-- Snapshot for the idempotence counterexample: feed `A` = [X], feed
`B` (newest-first) = [X, W]. -/
def snapAB : String → List Entry :=
  fun u => if u = "A" then [xEntry] else if u = "B" then [xEntry, wEntry] else []

/-- A recent on-topic entry with identifier `A1`. -/
def entryRecentA : Entry :=
  { id := some "A1", title := some "physics basics",
    published_parsed := some 100 }

/-- An entry with an identifier but no parsable publication
timestamp. -/
def entryNoPub : Entry :=
  { id := some "N", title := some "physics n" }

/-- A channel that fails the rich-format attempt with a network error
and would confirm a plain one. -/
def envNetFail : Env :=
  { envT with channel := fun _ pm =>
      match pm with
      | some _ => ChanResp.networkError
      | none => ChanResp.ok }

/-- Environment whose primary backend succeeds. -/
def envGenOk : Env :=
  { envT with genai := fun _ _ => some "عنوان\n\nتوضیح" }

/-- Environment whose primary backend fails and secondary succeeds. -/
def envOaOk : Env :=
  { envT with openaiContent := fun _ => some "x\n\ny" }

/-- Snapshot with a single recent on-topic entry on every feed. -/
def snapSingleRecent : String → List Entry :=
  fun _ => [entryRecentA]

/-! ## General lemmas about the association-list operations -/

theorem alookup_aupdate_self {κ α : Type} [DecidableEq κ]
    (l : List (κ × α)) (k : κ) (v : α) :
    alookup (aupdate l k v) k = some v := by
  induction l with
  | nil => simp [aupdate, alookup]
  | cons kv r ih =>
    obtain ⟨k1, v1⟩ := kv
    by_cases h : k1 = k
    · simp [aupdate, h, alookup]
    · simp [aupdate, h, alookup, ih]

theorem alookup_aupdate_other {κ α : Type} [DecidableEq κ]
    (l : List (κ × α)) (k w : κ) (v : α) (hkw : k ≠ w) :
    alookup (aupdate l k v) w = alookup l w := by
  induction l with
  | nil => simp [aupdate, alookup, hkw]
  | cons kv r ih =>
    obtain ⟨k1, v1⟩ := kv
    by_cases h : k1 = k
    · subst h; simp [aupdate, alookup, hkw]
    · simp [aupdate, h, alookup, ih]

/-! ## C10: the retrieved window is capped at MAX_ENTRIES_PER_FEED -/

/-- C10: processing a feed depends only on the first
`maxEntriesPerFeed` entries of the newest-first feed order — an entry at
a later position is never examined, so it can neither be delivered nor
serve as the boundary match. -/
theorem window_cap_determines_feed_processing (env : Env)
    (es : List Entry) (u : String) (st : RunState) :
    processFeed env es u st
      = processFeed env (es.take env.maxEntriesPerFeed) u st := by
  unfold processFeed windowOf
  by_cases h : es = []
  · subst h; simp
  · by_cases h2 : es.take env.maxEntriesPerFeed = []
    · simp [h, h2, processFeedEntries]
    · simp [h, h2, List.take_take, Nat.min_self, processFeedEntries]

/-! ## C8: the two raw-output splitters -/

/-- C8 counterexample: the claim that the two backends' splitters agree
on every non-empty raw text is false — on a whitespace-only raw text
such as a bare blank line the GenAI-path splitter produces no pair
(control falls through to the next backend) while the OpenAI-path
splitter returns the original title with a fixed note. -/
theorem splitters_disagree_on_blank_raw :
    ¬ ∀ raw title : String, raw ≠ "" →
        genaiSplit raw = some (openaiSplitPair title raw) := by
  intro h
  exact absurd (h "\n\n" "T" (by decide)) (by decide)

/-- C8 (amended): on every raw text with at least one non-blank
blank-line-delimited block, the splitter of the GenAI path and the
splitter of the OpenAI path compute the same (title, explanation)
pair. -/
theorem splitters_identical_on_nonblank_raw (raw title : String)
    (h : pyParts raw ≠ []) :
    genaiSplit raw = some (openaiSplitPair title raw) := by
  cases hp : pyParts raw with
  | nil => exact absurd hp h
  | cons p ps =>
    cases ps with
    | nil => simp [genaiSplit, openaiSplitPair, hp]
    | cons q qs => simp [genaiSplit, openaiSplitPair, hp]

/-- Witness for the amended C8 at a concrete raw text. -/
theorem splitters_identical_witness :
    pyParts "a\n\nb" ≠ [] ∧
      genaiSplit "a\n\nb" = some (openaiSplitPair "T" "a\n\nb") :=
  ⟨by decide, splitters_identical_on_nonblank_raw "a\n\nb" "T" (by decide)⟩

/-! ## C9: delivery with format degradation -/

/-- C9 counterexample: the plain-text retry is not restricted to
payload rejections — with a channel that fails the rich attempt with a
network error, a second attempt is still made. -/
theorem plain_retry_happens_on_network_error :
    ¬ ∀ (env : Env) (m : String),
        (deliveryAttempts env m).length = 2 →
          env.channel m (some "HTML") = ChanResp.badRequest := by
  intro h
  exact absurd (h envNetFail "m" (by decide)) (by decide)

/-- C9 (amended): every message is attempted rich-first; exactly one
plain-text retry on the unescaped content happens whenever (and only
when) the rich attempt was not confirmed, whatever the failure reason;
delivery counts as confirmed only on an explicit success
acknowledgement of one of the attempts. -/
theorem delivery_degradation_retry_policy (env : Env) (m : String) :
    deliveryAttempts env m
        = (if env.channel m (some "HTML") = ChanResp.ok then
            [(m, some "HTML")]
          else [(m, some "HTML"), (htmlUnescape m, none)])
      ∧ ((deliveryAttempts env m).length = 2 ↔
          env.channel m (some "HTML") ≠ ChanResp.ok)
      ∧ (deliverWithFallback env m = true ↔
          ∃ a ∈ deliveryAttempts env m, env.channel a.1 a.2 = ChanResp.ok) := by
  by_cases h : env.channel m (some "HTML") = ChanResp.ok <;>
    simp [deliveryAttempts, deliverWithFallback, send_telegram_message, h]

/-! ## C7: the calendar-day recency policy -/

/-- C7: an entry with no parsable publication timestamp never changes
the loop state (it is dropped before any other logic), and for a
parsable one the recency flag holds exactly when the local publication
day is today, or yesterday while the local clock is within the grace
window after midnight. -/
theorem recency_calendar_day_policy (env : Env) (u : String)
    (lastId : Option String) (sl : Bool) (st : RunState) (e : Entry) :
    (entry_published_date_in_tz env e = none →
        stepEntry env u lastId (sl, st) e = (sl, st))
      ∧ (∀ d, entry_published_date_in_tz env e = some d →
          (sendFlagOf env d = true ↔
            (d = env.today ∨ (d = env.today - 1 ∧
              env.secondsSinceMidnight ≤ env.graceHours * 3600)))) := by
  constructor
  · intro h
    unfold stepEntry
    cases hid : entryIdOf e <;> simp [hid, h]
  · intro d _
    unfold sendFlagOf
    split_ifs with h1 h2
    · simp [h1]
    · simp [h1, h2]
    · simp [h1, h2]

/-- Witness for C7 at a concrete timestampless entry and a concrete
today-valued day. -/
theorem recency_policy_witness :
    stepEntry envT "u" none (true, initialState [] []) entryNoPub
        = (true, initialState [] [])
      ∧ (sendFlagOf envT 100 = true ↔
          ((100 : Int) = envT.today ∨ ((100 : Int) = envT.today - 1 ∧
            envT.secondsSinceMidnight ≤ envT.graceHours * 3600))) :=
  ⟨(recency_calendar_day_policy envT "u" none true (initialState [] [])
      entryNoPub).1 (by decide),
   (recency_calendar_day_policy envT "u" none true (initialState [] [])
      entryRecentA).2 100 (by decide)⟩

/-! ## C4: generation orchestration with fallback -/

/-- C4: the generation step is primary-first — when the GenAI stage
(iterating its model preference list) yields usable split output, the
result is that pair tagged "genai" and the OpenAI oracle is never
consulted (the result is the same for every secondary oracle); the
OpenAI stage decides only when the primary stage failed; when both fail
the result is exactly the degraded substitute (escaped original title
and the fixed placeholder).  Totality — a value is always produced — is
the type of `process_article_with_ai` itself. -/
theorem generation_fallback_chain (env : Env) (t s : String) :
    (∀ a b f, genaiPair env t s = some (a, b) →
        process_article_with_ai { env with openaiContent := f } t s
          = (a, b, "genai"))
      ∧ (genaiPair env t s = none → openai_generate env t s = none →
          process_article_with_ai env t s = aiFallback t)
      ∧ (∀ x y, genaiPair env t s = none →
          openai_generate env t s = some (x, y) → x ≠ "" →
          process_article_with_ai env t s
            = (x, (if y = "" then "(بدون توضیح)" else y), "openai")) := by
  refine ⟨?_, ?_, ?_⟩
  · intro a b f h
    have hg : genai_generate { env with openaiContent := f } t s
        = genai_generate env t s := rfl
    cases hgg : genai_generate env t s with
    | none => simp [genaiPair, hgg] at h
    | some raw =>
      simp only [genaiPair, hgg] at h
      by_cases hr : raw = ""
      · rw [if_pos hr] at h; exact absurd h (by simp)
      · rw [if_neg hr] at h
        simp [process_article_with_ai, hg.trans hgg, hr, h]
  · intro h1 h2
    cases hgg : genai_generate env t s with
    | none => simp [process_article_with_ai, openaiStage, hgg, h2]
    | some raw =>
      simp only [genaiPair, hgg] at h1
      by_cases hr : raw = ""
      · simp [process_article_with_ai, openaiStage, hgg, hr, h2]
      · rw [if_neg hr] at h1
        simp [process_article_with_ai, openaiStage, hgg, hr, h1, h2]
  · intro x y h1 h2 hx
    cases hgg : genai_generate env t s with
    | none => simp [process_article_with_ai, openaiStage, hgg, h2, hx]
    | some raw =>
      simp only [genaiPair, hgg] at h1
      by_cases hr : raw = ""
      · simp [process_article_with_ai, openaiStage, hgg, hr, h2, hx]
      · rw [if_neg hr] at h1
        simp [process_article_with_ai, openaiStage, hgg, hr, h1, h2, hx]

/-- Witness for C4: the three scenarios at concrete oracles. -/
theorem generation_fallback_witness :
    process_article_with_ai { envGenOk with openaiContent := fun _ => some "z" }
        "T" "S" = ("عنوان", "توضیح", "genai")
      ∧ process_article_with_ai envT "T" "S" = aiFallback "T"
      ∧ process_article_with_ai envOaOk "T" "S" = ("x", "y", "openai") :=
  ⟨(generation_fallback_chain envGenOk "T" "S").1 "عنوان" "توضیح"
      (fun _ => some "z") (by decide),
   (generation_fallback_chain envT "T" "S").2.1 (by decide) (by decide),
   by
    have h := (generation_fallback_chain envOaOk "T" "S").2.2 "x" "y"
      (by decide) (by decide) (by decide)
    simpa using h⟩

/-! ## C1: the matched boundary entry that fails the recency filter -/

/-- C1 (code bug): evaluating the feed loop on a ledger whose recorded
identifier matches an entry that fails the recency filter.  The
`seen_last = True` assignment of line 514 is not followed by a
`continue`, so control falls through into the send path and the boundary
entry — already delivered in an earlier run — is redelivered, although
its publication day (97) fails the recency check.  This contradicts both
the comment at line 512 and the matched-boundary handling of the
recency-passing branch (lines 522-528). -/
theorem stale_boundary_entry_redelivered :
    (check_news_run envT (fun _ => [staleBoundaryEntry]) ["u"]
        (initialState [("u", "B")] [])).delivered = [("u", "B")]
      ∧ sendFlagOf envT 97 = false := by
  decide

/-! ## The step-case workhorse: every entry either leaves the state
unchanged or records a confirmed delivery -/

theorem afterBoundary_cases (env : Env) (url : String)
    (lastId : Option String) (sl : Bool) (st : RunState) (e : Entry)
    (eid : String) (pubd : Int) :
    (afterBoundaryStep env url lastId sl st e eid pubd).2 = st ∨
      (eid ∉ st.sent_this_run ∧
        (∃ emoji, detect_topic_and_emoji (combinedTextOf e) = some emoji ∧
          deliverWithFallback env (messageFor env e pubd emoji) = true) ∧
        (afterBoundaryStep env url lastId sl st e eid pubd).2
          = recordDelivery st url eid pubd (aiOf env e).1 (truthyOpt e.link)) := by
  unfold afterBoundaryStep
  by_cases hc : eid ∈ st.sent_this_run
  · left; simp [hc]
  · have hc2 : ¬ (st.sent_this_run.contains eid = true) := by simpa using hc
    cases ht : detect_topic_and_emoji (combinedTextOf e) with
    | none =>
      left
      simp [hc2, apply_ite]
    | some emoji =>
      by_cases hd : deliverWithFallback env (messageFor env e pubd emoji) = true
      · right
        refine ⟨hc, ⟨emoji, rfl, hd⟩, ?_⟩
        simp [hc, hd]
      · left
        simp [hc, hd]

theorem stepEntry_state_cases (env : Env) (url : String)
    (lastId : Option String) (acc : Bool × RunState) (e : Entry) :
    (stepEntry env url lastId acc e).2 = acc.2 ∨
      ∃ eid pubd,
        entryIdOf e = some eid ∧
        entry_published_date_in_tz env e = some pubd ∧
        eid ∉ acc.2.sent_this_run ∧
        (∃ emoji, detect_topic_and_emoji (combinedTextOf e) = some emoji ∧
          deliverWithFallback env (messageFor env e pubd emoji) = true) ∧
        (stepEntry env url lastId acc e).2
          = recordDelivery acc.2 url eid pubd (aiOf env e).1
              (truthyOpt e.link) := by
  unfold stepEntry
  cases hid : entryIdOf e with
  | none => left; simp
  | some eid =>
    cases hpd : entry_published_date_in_tz env e with
    | none => left; simp
    | some pubd =>
      by_cases hsf : sendFlagOf env pubd = true
      · by_cases hsl : acc.1 = true
        · simp only [hsf, if_true, hsl, Bool.not_true, Bool.false_eq_true,
            if_false]
          rcases afterBoundary_cases env url lastId true acc.2 e eid pubd with
            h | ⟨h1, h2, h3⟩
          · left; exact h
          · right; exact ⟨eid, pubd, rfl, rfl, h1, h2, h3⟩
        · left
          simp only [Bool.not_eq_true] at hsl
          simp only [hsf, if_true, hsl, Bool.not_false, if_true]
          split <;> rfl
      · by_cases hsl : acc.1 = true
        · left
          simp [hsf, hsl]
        · simp only [Bool.not_eq_true] at hsl
          by_cases hm : lastId = some eid
          · simp only [hsf, Bool.false_eq_true, if_false, hsl,
              Bool.not_false, if_true, hm]
            rcases afterBoundary_cases env url lastId true acc.2 e eid pubd with
              h | ⟨h1, h2, h3⟩
            · left; exact h
            · right; exact ⟨eid, pubd, rfl, rfl, h1, h2, h3⟩
          · left
            simp [hsf, hsl, hm]

/-! ## Generic invariant lifting through the loops -/

theorem pfe_invariant (env : Env) (url : String) (lastId : Option String)
    (P : RunState → Prop)
    (hstep : ∀ acc e, P acc.2 → P ((stepEntry env url lastId acc e).2)) :
    ∀ (es : List Entry) (acc : Bool × RunState), P acc.2 →
      P ((processFeedEntries env url lastId acc es).2) := by
  intro es
  induction es with
  | nil => intro acc h; exact h
  | cons e es ih =>
    intro acc h
    exact ih (stepEntry env url lastId acc e) (hstep acc e h)

theorem processFeed_invariant (env : Env) (u0 : String)
    (P : RunState → Prop)
    (hstep : ∀ lastId acc e, P acc.2 →
      P ((stepEntry env u0 lastId acc e).2)) :
    ∀ (es : List Entry) (st : RunState), P st →
      P (processFeed env es u0 st) := by
  intro es st h
  unfold processFeed
  by_cases he : es = []
  · simpa [he] using h
  · simp only [he, if_false]
    exact pfe_invariant env u0 _ P (fun acc e => hstep _ acc e) _ _ h

theorem run_invariant (env : Env) (snap : String → List Entry)
    (P : RunState → Prop)
    (hfeed : ∀ (u : String) (st : RunState), P st →
      P (processFeed env (snap u) u st)) :
    ∀ (us : List String) (st : RunState), P st →
      P (us.foldl (fun s u => processFeed env (snap u) u s) st) := by
  intro us
  induction us with
  | nil => intro st h; exact h
  | cons u us ih => intro st h; exact ih _ (hfeed u st h)

/-! ## C2: the ledger and dedupe set advance only on confirmed
delivery -/

/-- C2: for every entry processed by the loop body, either the persistent
ledger, the dedupe set (and all other state) are left exactly unchanged,
or the delivery of that entry's rendered message was confirmed by the
channel (`deliverWithFallback = true`) and the state advance is exactly
`recordDelivery`, which writes the feed-URL-to-identifier pair, extends
the run-scoped dedupe set, and logs the delivery.  In particular a
failed delivery (both attempts unconfirmed) changes neither the ledger
entry nor the dedupe set for that entry. -/
theorem ledger_and_dedupe_advance_only_on_confirmed_delivery (env : Env)
    (url : String) (lastId : Option String) (acc : Bool × RunState)
    (e : Entry) :
    (stepEntry env url lastId acc e).2 = acc.2 ∨
      ∃ eid pubd,
        entryIdOf e = some eid ∧
        entry_published_date_in_tz env e = some pubd ∧
        eid ∉ acc.2.sent_this_run ∧
        (∃ emoji, detect_topic_and_emoji (combinedTextOf e) = some emoji ∧
          deliverWithFallback env (messageFor env e pubd emoji) = true) ∧
        (stepEntry env url lastId acc e).2
          = recordDelivery acc.2 url eid pubd (aiOf env e).1
              (truthyOpt e.link) :=
  stepEntry_state_cases env url lastId acc e

/-! ## C6: cross-feed dedupe inside one run -/

theorem stepEntry_dedup_inv (env : Env) (url : String)
    (lastId : Option String) (acc : Bool × RunState) (e : Entry)
    (hP : DedupInv acc.2) : DedupInv ((stepEntry env url lastId acc e).2) := by
  rcases stepEntry_state_cases env url lastId acc e with
    heq | ⟨eid, pubd, _, _, hmem, _, heq⟩
  · rw [heq]; exact hP
  · rw [heq]
    unfold recordDelivery DedupInv
    refine ⟨?_, ?_⟩
    · simp only [List.map_append]
      have hnotin : eid ∉ acc.2.delivered.map Prod.snd := fun hin =>
        hmem (hP.2 eid hin)
      simp [List.nodup_append, hP.1, hnotin]
    · intro i hi
      simp only [List.map_append, List.mem_append] at hi
      rcases hi with hi | hi
      · exact List.mem_cons_of_mem _ (hP.2 i hi)
      · simp only [List.map_cons, List.map_nil, List.mem_singleton] at hi
        subst hi
        exact List.mem_cons_self _ _

/-- C6: within a single run (the dedupe set starts empty and lives only
for the run), no identifier is ever delivered twice — once an occurrence
of an identifier has been delivered from any feed, every later
occurrence on any feed is suppressed. -/
theorem cross_feed_dedupe_no_duplicate_delivery (env : Env)
    (snap : String → List Entry) (urls : List String)
    (L0 : List (String × String))
    (daily0 : List (Int × List (String × Option String))) :
    ((check_news_run env snap urls
        (initialState L0 daily0)).delivered.map Prod.snd).Nodup := by
  have main := run_invariant env snap DedupInv
    (fun u st h =>
      processFeed_invariant env u DedupInv
        (fun lastId acc e hP => stepEntry_dedup_inv env u lastId acc e hP)
        (snap u) st h)
    (dedupFirst urls) (initialState L0 daily0)
    (by constructor <;> simp [initialState])
  exact main.1

/-! ## C3: lost boundary means conservative skip -/

theorem stepEntry_no_match (env : Env) (url : String) (v : String)
    (st : RunState) (e : Entry) (hmatch : entryIdOf e ≠ some v) :
    stepEntry env url (some v) (false, st) e = (false, st) := by
  unfold stepEntry
  cases hid : entryIdOf e with
  | none => simp
  | some eid =>
    have hne : ¬ (some v = some eid) := by
      intro hcontra
      apply hmatch
      rw [hid]
      exact hcontra.symm
    cases hpd : entry_published_date_in_tz env e with
    | none => simp
    | some pubd =>
      by_cases hsf : sendFlagOf env pubd = true <;>
        simp [hsf, hne]

theorem pfe_no_match (env : Env) (url : String) (v : String) :
    ∀ (es : List Entry) (st : RunState),
      (∀ e ∈ es, entryIdOf e ≠ some v) →
      processFeedEntries env url (some v) (false, st) es = (false, st) := by
  intro es
  induction es with
  | nil => intro st _; rfl
  | cons e es ih =>
    intro st hm
    have h1 : stepEntry env url (some v) (false, st) e = (false, st) :=
      stepEntry_no_match env url v st e (hm e (List.mem_cons_self e es))
    have h2 : processFeedEntries env url (some v) (false, st) (e :: es)
        = processFeedEntries env url (some v)
            (stepEntry env url (some v) (false, st) e) es := rfl
    rw [h2, h1]
    exact ih st (fun f hf => hm f (List.mem_cons_of_mem e hf))

theorem processFeed_no_match (env : Env) (entries : List Entry)
    (u : String) (st : RunState) (v : String)
    (hl : alookup st.last_sent_links u = some v) (hv : v ≠ "")
    (hmatch : ∀ e ∈ windowOf env entries, entryIdOf e ≠ some v) :
    processFeed env entries u st = st := by
  unfold processFeed
  by_cases he : entries = []
  · simp [he]
  · simp only [he, if_false, hl]
    have ht : truthyOpt (some v) = some v := by simp [truthyOpt, hv]
    simp only [ht, Option.isNone_some]
    rw [pfe_no_match env u v (windowOf env entries) st hmatch]

theorem stepEntry_lost_boundary_inv (env : Env) (w u v : String)
    (hw : w ≠ u) (lastId : Option String) (acc : Bool × RunState)
    (e : Entry) (hP : LostBoundaryInv u v acc.2) :
    LostBoundaryInv u v ((stepEntry env w lastId acc e).2) := by
  rcases stepEntry_state_cases env w lastId acc e with
    heq | ⟨eid, pubd, _, _, _, _, heq⟩
  · rw [heq]; exact hP
  · rw [heq]
    unfold recordDelivery LostBoundaryInv
    refine ⟨?_, ?_⟩
    · simpa [alookup_aupdate_other _ w u eid hw] using hP.1
    · have hwu : (w == u) = false := by simp [hw]
      simp [List.filter_append, hP.2, hwu]

/-- C3: for a feed whose ledger records a (non-empty) identifier that
matches no entry identifier in the retrieved window, no entry of that
feed is delivered during the whole run, and the feed's ledger entry is
unchanged at the end of the run. -/
theorem lost_boundary_conservative_skip (env : Env)
    (snap : String → List Entry) (urls : List String)
    (L0 : List (String × String))
    (daily0 : List (Int × List (String × Option String)))
    (u v : String)
    (hl : alookup L0 u = some v) (hv : v ≠ "")
    (hmatch : ∀ e ∈ windowOf env (snap u), entryIdOf e ≠ some v) :
    (check_news_run env snap urls
        (initialState L0 daily0)).delivered.filter (fun p => p.1 == u) = []
      ∧ alookup (check_news_run env snap urls
          (initialState L0 daily0)).last_sent_links u = some v := by
  have main := run_invariant env snap (LostBoundaryInv u v)
    (fun w st h => by
      by_cases hw : w = u
      · subst hw
        rw [processFeed_no_match env (snap w) w st v h.1 hv hmatch]
        exact h
      · exact processFeed_invariant env w (LostBoundaryInv u v)
          (fun lastId acc e hP =>
            stepEntry_lost_boundary_inv env w u v hw lastId acc e hP)
          (snap w) st h)
    (dedupFirst urls) (initialState L0 daily0)
    (by constructor <;> simp [initialState, hl])
  exact ⟨main.2, main.1⟩

/-- Witness for C3: a ledger pointing at an identifier absent from the
window; nothing is delivered and the ledger entry survives the run. -/
theorem lost_boundary_witness :
    (check_news_run envT snapSingleRecent ["u"]
        (initialState [("u", "Z")] [])).delivered.filter
          (fun p => p.1 == "u") = []
      ∧ alookup (check_news_run envT snapSingleRecent ["u"]
          (initialState [("u", "Z")] [])).last_sent_links "u" = some "Z" :=
  lost_boundary_conservative_skip envT snapSingleRecent ["u"]
    [("u", "Z")] [] "u" "Z" (by decide) (by decide) (by decide)

/-! ## C5: idempotence of a repeated run -/

/-- C5 counterexample: running the job twice over the same snapshot with
every delivery confirmed can deliver on the second run.  Feed A's window
is [X]; feed B's newest-first window is [X, W] with the same identifier
X appearing on both feeds.  In run 1, A delivers X, then B delivers W
(oldest first) and suppresses X through the run-scoped dedupe set
without advancing B's ledger, which therefore ends at W.  In run 2 the
dedupe set is empty again, B's boundary W is consumed and X — past the
boundary and no longer suppressed — is delivered again. -/
theorem second_run_can_deliver :
    (check_news_run envT snapAB ["A", "B"] (initialState [] [])).delivered
        = [("A", "X"), ("B", "W")]
      ∧ (check_news_run envT snapAB ["A", "B"]
          (initialState
            (check_news_run envT snapAB ["A", "B"]
              (initialState [] [])).last_sent_links
            (check_news_run envT snapAB ["A", "B"]
              (initialState [] [])).daily_sent)).delivered
        = [("B", "X")] := by
  decide

/-! ## Pure-decision lemmas for the simulation argument -/

theorem truthyOpt_ne_empty {o : Option String} {i : String}
    (h : truthyOpt o = some i) : i ≠ "" := by
  cases o with
  | none => simp [truthyOpt] at h
  | some s =>
    by_cases hs : s = "" <;> simp [truthyOpt, hs] at h
    subst h; exact hs

theorem entryIdOf_ne_empty {e : Entry} {i : String}
    (h : entryIdOf e = some i) : i ≠ "" := by
  unfold entryIdOf at h
  cases h1 : truthyOpt e.id with
  | some s => rw [h1] at h; exact truthyOpt_ne_empty (h1.trans h)
  | none =>
    rw [h1] at h
    cases h2 : truthyOpt e.guid with
    | some s => rw [h2] at h; exact truthyOpt_ne_empty (h2.trans h)
    | none => rw [h2] at h; exact truthyOpt_ne_empty h

theorem deliver_ok (env : Env)
    (hchan : ∀ m pm, env.channel m pm = ChanResp.ok) (msg : String) :
    deliverWithFallback env msg = true := by
  simp [deliverWithFallback, send_telegram_message, hchan]

theorem truthyIdsOf_nil : truthyIdsOf [] = [] := rfl

theorem truthyIdsOf_cons_some {e : Entry} {i : String} (es : List Entry)
    (h : entryIdOf e = some i) :
    truthyIdsOf (e :: es) = i :: truthyIdsOf es := by
  simp [truthyIdsOf, List.filterMap_cons, h]

theorem truthyIdsOf_cons_none {e : Entry} (es : List Entry)
    (h : entryIdOf e = none) :
    truthyIdsOf (e :: es) = truthyIdsOf es := by
  simp [truthyIdsOf, List.filterMap_cons, h]

theorem truthyIdsOf_append (xs ys : List Entry) :
    truthyIdsOf (xs ++ ys) = truthyIdsOf xs ++ truthyIdsOf ys := by
  simp [truthyIdsOf, List.filterMap_append]

theorem mem_truthyIdsOf {es : List Entry} {e : Entry} {i : String}
    (he : e ∈ es) (h : entryIdOf e = some i) : i ∈ truthyIdsOf es := by
  simp only [truthyIdsOf, List.mem_filterMap]
  exact ⟨e, he, h⟩

theorem pureStep_true_fst (env : Env) (l : Option String) (e : Entry) :
    (pureStep env l true e).1 = true := by
  unfold pureStep
  cases hid : entryIdOf e with
  | none => rfl
  | some eid =>
    cases hpd : entry_published_date_in_tz env e with
    | none => rfl
    | some pubd =>
      by_cases hsf : sendFlagOf env pubd = true
      · simp only [hsf, if_true, Bool.not_true, Bool.false_eq_true, if_false]
        cases ht : detect_topic_and_emoji (combinedTextOf e) <;>
          simp [pureAfter, ht]
      · simp [hsf]

theorem pureStep_true_lastId_indep (env : Env) (l l' : Option String)
    (e : Entry) : pureStep env l true e = pureStep env l' true e := by
  unfold pureStep
  cases hid : entryIdOf e with
  | none => rfl
  | some eid =>
    cases hpd : entry_published_date_in_tz env e with
    | none => rfl
    | some pubd =>
      by_cases hsf : sendFlagOf env pubd = true <;> simp [hsf]

theorem pureStep_deliver_inv (env : Env) (l : Option String) (sl : Bool)
    (e : Entry) (h : (pureStep env l sl e).2 = true) :
    (pureStep env l sl e).1 = true ∧
      ∃ eid pubd, entryIdOf e = some eid ∧
        entry_published_date_in_tz env e = some pubd ∧
        (sendFlagOf env pubd = true ∨ (sl = false ∧ l = some eid)) := by
  cases hid : entryIdOf e with
  | none => simp [pureStep, hid] at h
  | some eid =>
    cases hpd : entry_published_date_in_tz env e with
    | none => simp [pureStep, hid, hpd] at h
    | some pubd =>
      simp only [pureStep, hid, hpd] at h ⊢
      by_cases hsf : sendFlagOf env pubd = true
      · by_cases hsl : sl = true
        · simp only [hsf, if_true, hsl, Bool.not_true, Bool.false_eq_true,
            if_false] at h ⊢
          constructor
          · cases ht : detect_topic_and_emoji (combinedTextOf e) <;>
              simp [pureAfter, ht]
          · exact ⟨eid, pubd, rfl, rfl, Or.inl hsf⟩
        · simp only [Bool.not_eq_true] at hsl
          subst hsl
          simp only [hsf, if_true, Bool.not_false, if_true] at h
          by_cases hm : l = some eid <;> simp [hm] at h
      · by_cases hsl : sl = true
        · simp [hsf, hsl] at h
        · simp only [Bool.not_eq_true] at hsl
          subst hsl
          by_cases hm : l = some eid
          · simp only [hsf, Bool.false_eq_true, if_false, Bool.not_false,
              if_true, hm] at h ⊢
            constructor
            · cases ht : detect_topic_and_emoji (combinedTextOf e) <;>
                simp [pureAfter, ht]
            · refine ⟨eid, pubd, ?_, ?_, ?_⟩ <;> simp
          · simp [hsf, hm] at h

theorem pureStep_no_match (env : Env) (v : String) (e : Entry)
    (hmatch : entryIdOf e ≠ some v) :
    pureStep env (some v) false e = (false, false) := by
  unfold pureStep
  cases hid : entryIdOf e with
  | none => rfl
  | some eid =>
    have hne : ¬ (some v = some eid) := by
      intro hcontra
      apply hmatch
      rw [hid]
      exact hcontra.symm
    cases hpd : entry_published_date_in_tz env e with
    | none => rfl
    | some pubd =>
      by_cases hsf : sendFlagOf env pubd = true <;> simp [hsf, hne]

theorem pureRun_no_match (env : Env) (v : String) :
    ∀ es : List Entry, (∀ e ∈ es, entryIdOf e ≠ some v) →
      pureRun env (some v) false es = (false, []) := by
  intro es
  induction es with
  | nil => intro _; rfl
  | cons e es ih =>
    intro hm
    have h1 := pureStep_no_match env v e (hm e (List.mem_cons_self e es))
    simp only [pureRun, h1]
    rw [ih (fun f hf => hm f (List.mem_cons_of_mem e hf))]
    simp

theorem pureRun_true_of_pointwise (env : Env) (l : Option String) :
    ∀ es : List Entry, (∀ e ∈ es, (pureStep env l true e).2 = false) →
      pureRun env l true es = (true, []) := by
  intro es
  induction es with
  | nil => intro _; rfl
  | cons e es ih =>
    intro hm
    have h0 := hm e (List.mem_cons_self e es)
    have h1 := pureStep_true_fst env l e
    simp only [pureRun, h0, h1]
    rw [ih (fun f hf => hm f (List.mem_cons_of_mem e hf))]
    simp

theorem pureRun_true_pointwise_of_nil (env : Env) (l : Option String) :
    ∀ es : List Entry, (pureRun env l true es).2 = [] →
      ∀ e ∈ es, (pureStep env l true e).2 = false := by
  intro es
  induction es with
  | nil => intro _ e he; exact absurd he (List.not_mem_nil e)
  | cons e es ih =>
    intro h f hf
    have h1 := pureStep_true_fst env l e
    simp only [pureRun, h1] at h
    by_cases hp : (pureStep env l true e).2 = true
    · rw [if_pos hp] at h
      exact absurd h (by simp)
    · simp only [Bool.not_eq_true] at hp
      rw [hp] at h
      simp only [Bool.false_eq_true, if_false] at h
      rcases List.mem_cons.mp hf with hfe | hfes
      · subst hfe; exact hp
      · exact ih h f hfes

theorem pureRun_delivered_mem (env : Env) (l : Option String) :
    ∀ (es : List Entry) (sl : Bool), ∀ e ∈ (pureRun env l sl es).2, e ∈ es := by
  intro es
  induction es with
  | nil => intro sl e he; simp [pureRun] at he
  | cons e es ih =>
    intro sl f hf
    simp only [pureRun] at hf
    by_cases hp : (pureStep env l sl e).2 = true
    · rw [if_pos hp] at hf
      rcases List.mem_cons.mp hf with hfe | hfr
      · subst hfe; exact List.mem_cons_self _ _
      · exact List.mem_cons_of_mem _ (ih _ f hfr)
    · simp only [Bool.not_eq_true] at hp
      rw [hp] at hf
      simp only [Bool.false_eq_true, if_false] at hf
      exact List.mem_cons_of_mem _ (ih _ f hf)

theorem pureRun_append (env : Env) (l : Option String) :
    ∀ (xs ys : List Entry) (sl : Bool),
      pureRun env l sl (xs ++ ys)
        = ((pureRun env l (pureRun env l sl xs).1 ys).1,
           (pureRun env l sl xs).2
             ++ (pureRun env l (pureRun env l sl xs).1 ys).2) := by
  intro xs
  induction xs with
  | nil => intro ys sl; simp [pureRun]
  | cons e xs ih =>
    intro ys sl
    simp only [List.cons_append, pureRun, List.append_eq]
    rw [ih]
    by_cases hp : (pureStep env l sl e).2 = true <;> simp [hp]

/-! ## Simulation: under an always-confirming channel and a
non-interfering dedupe set, the loop is the pure decision plus the
delivery replay -/

theorem afterBoundary_sim (env : Env) (url : String)
    (lastId : Option String) (st : RunState) (e : Entry) (eid : String)
    (pubd : Int)
    (hchan : ∀ m pm, env.channel m pm = ChanResp.ok)
    (hcont : st.sent_this_run.contains eid = false)
    (hid : entryIdOf e = some eid)
    (hpd : entry_published_date_in_tz env e = some pubd) :
    afterBoundaryStep env url lastId true st e eid pubd
      = ((pureAfter e).1,
         if (pureAfter e).2 = true then deliverUpd env url st e else st) := by
  unfold afterBoundaryStep
  have hcont2 : ¬ (st.sent_this_run.contains eid = true) := by
    simp only [hcont]
    simp
  rw [if_neg hcont2]
  cases ht : detect_topic_and_emoji (combinedTextOf e) with
  | none => simp [pureAfter, ht]
  | some emoji =>
    have hdel := deliver_ok env hchan (messageFor env e pubd emoji)
    simp [pureAfter, ht, hdel, deliverUpd, hid, hpd]

theorem stepEntry_sim (env : Env) (url : String) (lastId : Option String)
    (acc : Bool × RunState) (e : Entry)
    (hchan : ∀ m pm, env.channel m pm = ChanResp.ok)
    (hded : ∀ eid, entryIdOf e = some eid → eid ∉ acc.2.sent_this_run) :
    stepEntry env url lastId acc e
      = ((pureStep env lastId acc.1 e).1,
         if (pureStep env lastId acc.1 e).2 = true
         then deliverUpd env url acc.2 e else acc.2) := by
  cases hid : entryIdOf e with
  | none => simp [stepEntry, pureStep, hid]
  | some eid =>
    cases hpd : entry_published_date_in_tz env e with
    | none => simp [stepEntry, pureStep, hid, hpd]
    | some pubd =>
      have hcont : acc.2.sent_this_run.contains eid = false := by
        simpa using hded eid hid
      by_cases hsf : sendFlagOf env pubd = true
      · by_cases hsl : acc.1 = true
        · simp only [stepEntry, pureStep, hid, hpd, hsf, if_true, hsl,
            Bool.not_true, Bool.false_eq_true, if_false]
          exact afterBoundary_sim env url lastId acc.2 e eid pubd hchan
            hcont hid hpd
        · simp only [Bool.not_eq_true] at hsl
          by_cases hm : lastId = some eid <;>
            simp [stepEntry, pureStep, hid, hpd, hsf, hsl, hm]
      · by_cases hsl : acc.1 = true
        · simp [stepEntry, pureStep, hid, hpd, hsf, hsl]
        · simp only [Bool.not_eq_true] at hsl
          by_cases hm : lastId = some eid
          · simp only [stepEntry, pureStep, hid, hpd, hsf,
              Bool.false_eq_true, if_false, hsl, Bool.not_false, if_true, hm]
            exact afterBoundary_sim env url lastId acc.2 e eid pubd hchan
              hcont hid hpd
          · simp [stepEntry, pureStep, hid, hpd, hsf, hsl, hm]

theorem pfe_sim (env : Env) (url : String) (lastId : Option String)
    (hchan : ∀ m pm, env.channel m pm = ChanResp.ok) :
    ∀ (es : List Entry) (acc : Bool × RunState),
      (truthyIdsOf es).Nodup →
      (∀ i ∈ truthyIdsOf es, i ∉ acc.2.sent_this_run) →
      processFeedEntries env url lastId acc es
        = ((pureRun env lastId acc.1 es).1,
           applyDelivs env url acc.2 (pureRun env lastId acc.1 es).2) := by
  intro es
  induction es with
  | nil => intro acc _ _; simp [processFeedEntries, pureRun, applyDelivs]
  | cons e es ih =>
    intro acc hnd hdis
    have hded : ∀ eid, entryIdOf e = some eid →
        eid ∉ acc.2.sent_this_run := by
      intro eid hid
      exact hdis eid (mem_truthyIdsOf (List.mem_cons_self e es) hid)
    have hstep := stepEntry_sim env url lastId acc e hchan hded
    have hrec : processFeedEntries env url lastId acc (e :: es)
        = processFeedEntries env url lastId
            (stepEntry env url lastId acc e) es := rfl
    rw [hrec, hstep]
    by_cases hp : (pureStep env lastId acc.1 e).2 = true
    · rcases pureStep_deliver_inv env lastId acc.1 e hp with
        ⟨hfst, eid, pubd, hid, hpdd, _⟩
      have hids := truthyIdsOf_cons_some es hid
      rw [hids] at hnd hdis
      have hnd2 := List.nodup_cons.mp hnd
      have hsent : (deliverUpd env url acc.2 e).sent_this_run
          = eid :: acc.2.sent_this_run := by
        simp [deliverUpd, hid, hpdd, recordDelivery]
      have hdis2 : ∀ i ∈ truthyIdsOf es,
          i ∉ (deliverUpd env url acc.2 e).sent_this_run := by
        intro i hi
        rw [hsent]
        intro hmem
        rcases List.mem_cons.mp hmem with h1 | h1
        · exact hnd2.1 (h1 ▸ hi)
        · exact hdis i (List.mem_cons_of_mem _ hi) h1
      have hih := ih ((pureStep env lastId acc.1 e).1,
        deliverUpd env url acc.2 e) hnd2.2 hdis2
      rw [if_pos hp, hih]
      simp only [pureRun, hp, if_true]
      rfl
    · have hnd2 : (truthyIdsOf es).Nodup := by
        cases hid2 : entryIdOf e with
        | none => rw [truthyIdsOf_cons_none es hid2] at hnd; exact hnd
        | some i =>
          rw [truthyIdsOf_cons_some es hid2] at hnd
          exact (List.nodup_cons.mp hnd).2
      have hdis2 : ∀ i ∈ truthyIdsOf es, i ∉ acc.2.sent_this_run := by
        intro i hi
        cases hid2 : entryIdOf e with
        | none =>
          rw [truthyIdsOf_cons_none es hid2] at hdis
          exact hdis i hi
        | some j =>
          rw [truthyIdsOf_cons_some es hid2] at hdis
          exact hdis i (List.mem_cons_of_mem _ hi)
      have hih := ih ((pureStep env lastId acc.1 e).1, acc.2) hnd2 hdis2
      rw [if_neg hp, hih]
      simp only [Bool.not_eq_true] at hp
      simp only [pureRun, hp, Bool.false_eq_true, if_false]

theorem processFeed_sim (env : Env) (u : String) (es : List Entry)
    (st : RunState)
    (hchan : ∀ m pm, env.channel m pm = ChanResp.ok)
    (hnd : (truthyIdsOf (windowOf env es)).Nodup)
    (hdis : ∀ i ∈ truthyIdsOf (windowOf env es), i ∉ st.sent_this_run) :
    processFeed env es u st
      = applyDelivs env u st
          (pureRun env (alookup st.last_sent_links u)
            ((truthyOpt (alookup st.last_sent_links u)).isNone)
            (windowOf env es)).2 := by
  unfold processFeed
  by_cases he : es = []
  · subst he
    simp [windowOf, pureRun, applyDelivs]
  · simp only [he, if_false]
    rw [pfe_sim env u (alookup st.last_sent_links u) hchan
      (windowOf env es)
      ((truthyOpt (alookup st.last_sent_links u)).isNone, st) hnd hdis]

/-! ## Replay lemmas for `applyDelivs` -/

theorem applyDelivs_nil (env : Env) (u : String) (st : RunState) :
    applyDelivs env u st [] = st := rfl

theorem applyDelivs_append (env : Env) (u : String) (ds1 ds2 : List Entry)
    (st : RunState) :
    applyDelivs env u st (ds1 ++ ds2)
      = applyDelivs env u (applyDelivs env u st ds1) ds2 := by
  simp [applyDelivs, List.foldl_append]

theorem deliverUpd_ledger_other (env : Env) (u w : String)
    (st : RunState) (e : Entry) (hw : u ≠ w) :
    alookup (deliverUpd env u st e).last_sent_links w
      = alookup st.last_sent_links w := by
  unfold deliverUpd
  cases hid : entryIdOf e with
  | none => rfl
  | some eid =>
    cases hpd : entry_published_date_in_tz env e with
    | none => rfl
    | some pubd =>
      simp [recordDelivery, alookup_aupdate_other _ u w _ hw]

theorem applyDelivs_ledger_other (env : Env) (u w : String) (hw : u ≠ w) :
    ∀ (ds : List Entry) (st : RunState),
      alookup (applyDelivs env u st ds).last_sent_links w
        = alookup st.last_sent_links w := by
  intro ds
  induction ds with
  | nil => intro st; rfl
  | cons e ds ih =>
    intro st
    have h1 : applyDelivs env u st (e :: ds)
        = applyDelivs env u (deliverUpd env u st e) ds := rfl
    rw [h1, ih, deliverUpd_ledger_other env u w st e hw]

theorem applyDelivs_ledger_last (env : Env) (u : String)
    (ds1 : List Entry) (ep : Entry) (eid : String) (pubd : Int)
    (hid : entryIdOf ep = some eid)
    (hpd : entry_published_date_in_tz env ep = some pubd)
    (st : RunState) :
    alookup (applyDelivs env u st (ds1 ++ [ep])).last_sent_links u
      = some eid := by
  rw [applyDelivs_append]
  have h1 : applyDelivs env u (applyDelivs env u st ds1) [ep]
      = deliverUpd env u (applyDelivs env u st ds1) ep := rfl
  rw [h1]
  simp [deliverUpd, hid, hpd, recordDelivery, alookup_aupdate_self]

theorem deliverUpd_sent (env : Env) (u : String) (st : RunState)
    (e : Entry) (i : String)
    (h : i ∈ (deliverUpd env u st e).sent_this_run) :
    i ∈ st.sent_this_run ∨ entryIdOf e = some i := by
  unfold deliverUpd at h
  cases hid : entryIdOf e with
  | none => rw [hid] at h; exact Or.inl h
  | some eid =>
    rw [hid] at h
    cases hpd : entry_published_date_in_tz env e with
    | none => rw [hpd] at h; exact Or.inl h
    | some pubd =>
      rw [hpd] at h
      simp only [recordDelivery, List.mem_cons] at h
      rcases h with h | h
      · exact Or.inr (by rw [h])
      · exact Or.inl h

theorem applyDelivs_sent (env : Env) (u : String) :
    ∀ (ds : List Entry) (st : RunState) (i : String),
      i ∈ (applyDelivs env u st ds).sent_this_run →
      i ∈ st.sent_this_run ∨ ∃ e ∈ ds, entryIdOf e = some i := by
  intro ds
  induction ds with
  | nil => intro st i h; exact Or.inl h
  | cons e ds ih =>
    intro st i h
    have h1 : applyDelivs env u st (e :: ds)
        = applyDelivs env u (deliverUpd env u st e) ds := rfl
    rw [h1] at h
    rcases ih (deliverUpd env u st e) i h with h2 | ⟨f, hf, hfid⟩
    · rcases deliverUpd_sent env u st e i h2 with h3 | h3
      · exact Or.inl h3
      · exact Or.inr ⟨e, List.mem_cons_self _ _, h3⟩
    · exact Or.inr ⟨f, List.mem_cons_of_mem _ hf, hfid⟩

/-! ## Characterisation of the first run's deliveries on one feed -/

theorem pureRun_last_delivery (env : Env) (lastId : Option String) :
    ∀ (es : List Entry) (sl : Bool),
      (∀ e ∈ es, ∀ eid, entryIdOf e = some eid → lastId = some eid →
        ∀ d, entry_published_date_in_tz env e = some d →
          sendFlagOf env d = true) →
      (pureRun env lastId sl es).2 = [] ∨
      ∃ pre ep post ds1 eidp pubdp,
        es = pre ++ ep :: post ∧
        (pureRun env lastId sl es).2 = ds1 ++ [ep] ∧
        entryIdOf ep = some eidp ∧
        entry_published_date_in_tz env ep = some pubdp ∧
        sendFlagOf env pubdp = true ∧
        (∀ f ∈ post, (pureStep env lastId true f).2 = false) := by
  intro es
  induction es with
  | nil => intro sl _; left; rfl
  | cons e es ih =>
    intro sl hb
    have hbtail : ∀ f ∈ es, ∀ eid, entryIdOf f = some eid →
        lastId = some eid → ∀ d, entry_published_date_in_tz env f = some d →
        sendFlagOf env d = true :=
      fun f hf => hb f (List.mem_cons_of_mem e hf)
    rcases ih (pureStep env lastId sl e).1 hbtail with hnil |
      ⟨pre, ep, post, ds1, eidp, pubdp, hsplit, hds, hidp, hpdp, hsfp, hpost⟩
    · by_cases hp : (pureStep env lastId sl e).2 = true
      · right
        rcases pureStep_deliver_inv env lastId sl e hp with
          ⟨hfst, eid, pubd, hid, hpdd, hsfor⟩
        have hsf : sendFlagOf env pubd = true := by
          rcases hsfor with h | ⟨hsl0, hl⟩
          · exact h
          · exact hb e (List.mem_cons_self e es) eid hid hl pubd hpdd
        refine ⟨[], e, es, [], eid, pubd, by simp, ?_, hid, hpdd, hsf, ?_⟩
        · simp only [pureRun, hp, if_true]
          simp [hnil]
        · rw [hfst] at hnil
          exact pureRun_true_pointwise_of_nil env lastId es hnil
      · left
        simp only [Bool.not_eq_true] at hp
        simp [pureRun, hp, hnil]
    · right
      by_cases hp : (pureStep env lastId sl e).2 = true
      · refine ⟨e :: pre, ep, post, e :: ds1, eidp, pubdp,
          by simp [hsplit], ?_, hidp, hpdp, hsfp, hpost⟩
        simp only [pureRun, hp, if_true]
        simp [hds]
      · refine ⟨e :: pre, ep, post, ds1, eidp, pubdp,
          by simp [hsplit], ?_, hidp, hpdp, hsfp, hpost⟩
        simp only [Bool.not_eq_true] at hp
        simp [pureRun, hp, hds]

/-! ## The second pass over a characterised window delivers nothing -/

theorem pureRun_second_pass (env : Env) (eidp : String) (pubdp : Int)
    (pre post : List Entry) (ep : Entry)
    (hpre : ∀ f ∈ pre, entryIdOf f ≠ some eidp)
    (hid : entryIdOf ep = some eidp)
    (hpd : entry_published_date_in_tz env ep = some pubdp)
    (hsf : sendFlagOf env pubdp = true)
    (hpost : ∀ f ∈ post, (pureStep env (some eidp) true f).2 = false) :
    pureRun env (some eidp) false (pre ++ ep :: post) = (true, []) := by
  rw [pureRun_append, pureRun_no_match env eidp pre hpre]
  have hstep : pureStep env (some eidp) false ep = (true, false) := by
    simp [pureStep, hid, hpd, hsf]
  simp only [pureRun, hstep]
  rw [pureRun_true_of_pointwise env (some eidp) post hpost]
  simp

/-! ## Identifier-uniqueness helpers -/

theorem no_other_match_of_nodup (pre post : List Entry) (ep : Entry)
    (eidp : String) (hid : entryIdOf ep = some eidp)
    (hnd : (truthyIdsOf (pre ++ ep :: post)).Nodup) :
    (∀ f ∈ pre, entryIdOf f ≠ some eidp)
      ∧ (∀ f ∈ post, entryIdOf f ≠ some eidp) := by
  rw [truthyIdsOf_append, truthyIdsOf_cons_some post hid,
    List.nodup_append] at hnd
  obtain ⟨h1, h2, h3⟩ := hnd
  constructor
  · intro f hf hcontra
    exact (h3 (mem_truthyIdsOf hf hcontra)) (List.mem_cons_self _ _)
  · intro f hf hcontra
    exact (List.nodup_cons.mp h2).1 (mem_truthyIdsOf hf hcontra)

theorem dedupFirstAux_nodup :
    ∀ (l : List String) (seen : List String),
      (dedupFirstAux seen l).Nodup ∧
        ∀ x ∈ dedupFirstAux seen l, x ∉ seen := by
  intro l
  induction l with
  | nil =>
    intro seen
    exact ⟨List.nodup_nil, by simp [dedupFirstAux]⟩
  | cons u rest ih =>
    intro seen
    by_cases h : seen.contains u = true
    · simp only [dedupFirstAux, h, if_true]
      exact ih seen
    · simp only [dedupFirstAux, h, Bool.false_eq_true, if_false]
      obtain ⟨h1, h2⟩ := ih (u :: seen)
      refine ⟨List.nodup_cons.mpr ⟨?_, h1⟩, ?_⟩
      · intro hmem
        exact (h2 u hmem) (List.mem_cons_self _ _)
      · intro x hx
        rcases List.mem_cons.mp hx with rfl | hx2
        · simpa using h
        · intro hxs
          exact (h2 x hx2) (List.mem_cons_of_mem _ hxs)

theorem dedupFirst_nodup (urls : List String) : (dedupFirst urls).Nodup :=
  (dedupFirstAux_nodup urls []).1

/-! ## Run 1 leaves every feed second-run-quiescent -/

theorem run1_ready (env : Env) (snap : String → List Entry)
    (hchan : ∀ m pm, env.channel m pm = ChanResp.ok) :
    ∀ (us : List String) (st : RunState),
      us.Nodup →
      (allWindowIds env snap us).Nodup →
      (∀ i ∈ allWindowIds env snap us, i ∉ st.sent_this_run) →
      (∀ u ∈ us, ∀ e ∈ windowOf env (snap u), ∀ eid,
        entryIdOf e = some eid → alookup st.last_sent_links u = some eid →
        ∀ d, entry_published_date_in_tz env e = some d →
          sendFlagOf env d = true) →
      (∀ u ∈ us,
        Run2Ready env snap u
          (alookup (us.foldl (fun s w => processFeed env (snap w) w s)
            st).last_sent_links u)) ∧
      (∀ w, w ∉ us →
        alookup (us.foldl (fun s w => processFeed env (snap w) w s)
          st).last_sent_links w = alookup st.last_sent_links w) ∧
      (∀ i, i ∈ (us.foldl (fun s w => processFeed env (snap w) w s)
          st).sent_this_run →
        i ∈ st.sent_this_run ∨
          ∃ u ∈ us, i ∈ truthyIdsOf (windowOf env (snap u))) := by
  intro us
  induction us with
  | nil =>
    intro st _ _ _ _
    exact ⟨by simp, fun w _ => rfl, fun i hi => Or.inl hi⟩
  | cons u us ih =>
    intro st hnd hwnd hdisj hbound
    obtain ⟨hu_notin, hnd_us⟩ := List.nodup_cons.mp hnd
    have hwids : allWindowIds env snap (u :: us)
        = truthyIdsOf (windowOf env (snap u)) ++ allWindowIds env snap us :=
      rfl
    have hdisj1 : ∀ i ∈ truthyIdsOf (windowOf env (snap u)),
        i ∉ st.sent_this_run := fun i hi =>
      hdisj i (by rw [hwids]; exact List.mem_append_left _ hi)
    have hdisj2 : ∀ i ∈ allWindowIds env snap us,
        i ∉ st.sent_this_run := fun i hi =>
      hdisj i (by rw [hwids]; exact List.mem_append_right _ hi)
    rw [hwids, List.nodup_append] at hwnd
    obtain ⟨hw1, hw2, hw3⟩ := hwnd
    have hbu := hbound u (List.mem_cons_self _ _)
    have hsim := processFeed_sim env u (snap u) st hchan hw1 hdisj1
    have hfold : (u :: us).foldl (fun s w => processFeed env (snap w) w s) st
        = us.foldl (fun s w => processFeed env (snap w) w s)
            (processFeed env (snap u) u st) := rfl
    rcases pureRun_last_delivery env (alookup st.last_sent_links u)
      (windowOf env (snap u))
      ((truthyOpt (alookup st.last_sent_links u)).isNone) hbu with hza |
      ⟨pre, ep, post, ds1, eidp, pubdp, hsplit, hds, hidp, hpdp, hsfp, hpost⟩
    · -- the first run delivered nothing for this feed
      have hstm : processFeed env (snap u) u st = st := by
        rw [hsim, hza, applyDelivs_nil]
      obtain ⟨ih1, ih2, ih3⟩ := ih st hnd_us hw2 hdisj2
        (fun u2 hu2 => hbound u2 (List.mem_cons_of_mem _ hu2))
      rw [hfold, hstm]
      refine ⟨?_, ?_, ?_⟩
      · intro u2 hu2
        rcases List.mem_cons.mp hu2 with rfl | hu3
        · rw [ih2 u2 hu_notin]
          intro st2 hl2 hs2
          have hdisj0 : ∀ i ∈ truthyIdsOf (windowOf env (snap u2)),
              i ∉ st2.sent_this_run := by
            intro i _
            rw [hs2]
            exact List.not_mem_nil i
          have hsim2 := processFeed_sim env u2 (snap u2) st2 hchan hw1 hdisj0
          rw [hsim2, hl2, hza, applyDelivs_nil]
        · exact ih1 u2 hu3
      · intro w hw
        exact ih2 w (fun hh => hw (List.mem_cons_of_mem _ hh))
      · intro i hi
        rcases ih3 i hi with h | ⟨u2, hu2, hiu⟩
        · exact Or.inl h
        · exact Or.inr ⟨u2, List.mem_cons_of_mem _ hu2, hiu⟩
    · -- the first run delivered, ending at ep
      have hstm : processFeed env (snap u) u st
          = applyDelivs env u st (ds1 ++ [ep]) := by
        rw [hsim, hds]
      have hled_u : alookup (processFeed env (snap u) u st).last_sent_links u
          = some eidp := by
        rw [hstm]
        exact applyDelivs_ledger_last env u ds1 ep eidp pubdp hidp hpdp st
      have hled_w : ∀ w, w ≠ u →
          alookup (processFeed env (snap u) u st).last_sent_links w
            = alookup st.last_sent_links w := by
        intro w hw
        rw [hstm]
        exact applyDelivs_ledger_other env u w (fun hh => hw hh.symm) _ st
      have hsent_m : ∀ i, i ∈ (processFeed env (snap u) u st).sent_this_run →
          i ∈ st.sent_this_run ∨
            i ∈ truthyIdsOf (windowOf env (snap u)) := by
        intro i hi
        rw [hstm] at hi
        rcases applyDelivs_sent env u (ds1 ++ [ep]) st i hi with
          h | ⟨e, he, heid⟩
        · exact Or.inl h
        · right
          have hmem_ds : e ∈ (pureRun env (alookup st.last_sent_links u)
              ((truthyOpt (alookup st.last_sent_links u)).isNone)
              (windowOf env (snap u))).2 := by
            rw [hds]
            exact he
          exact mem_truthyIdsOf
            (pureRun_delivered_mem env _ _ _ e hmem_ds) heid
      have hdisj2m : ∀ i ∈ allWindowIds env snap us,
          i ∉ (processFeed env (snap u) u st).sent_this_run := by
        intro i hi hmem
        rcases hsent_m i hmem with h | h
        · exact hdisj2 i hi h
        · exact hw3 h hi
      have hboundm : ∀ u2 ∈ us, ∀ e ∈ windowOf env (snap u2), ∀ eid,
          entryIdOf e = some eid →
          alookup (processFeed env (snap u) u st).last_sent_links u2
            = some eid →
          ∀ d, entry_published_date_in_tz env e = some d →
            sendFlagOf env d = true := by
        intro u2 hu2 e he eid hid hl d hpd
        have hne : u2 ≠ u := fun hh => hu_notin (hh ▸ hu2)
        rw [hled_w u2 hne] at hl
        exact hbound u2 (List.mem_cons_of_mem _ hu2) e he eid hid hl d hpd
      obtain ⟨ih1, ih2, ih3⟩ :=
        ih (processFeed env (snap u) u st) hnd_us hw2 hdisj2m hboundm
      rw [hfold]
      refine ⟨?_, ?_, ?_⟩
      · intro u2 hu2
        rcases List.mem_cons.mp hu2 with rfl | hu3
        · rw [ih2 u2 hu_notin, hled_u]
          obtain ⟨hnm_pre, hnm_post⟩ :=
            no_other_match_of_nodup pre post ep eidp hidp
              (by rw [← hsplit]; exact hw1)
          intro st2 hl2 hs2
          have hdisj0 : ∀ i ∈ truthyIdsOf (windowOf env (snap u2)),
              i ∉ st2.sent_this_run := by
            intro i _
            rw [hs2]
            exact List.not_mem_nil i
          have hsim2 := processFeed_sim env u2 (snap u2) st2 hchan hw1 hdisj0
          rw [hsim2, hl2]
          have htr : truthyOpt (some eidp) = some eidp := by
            simp [truthyOpt, entryIdOf_ne_empty hidp]
          rw [htr]
          simp only [Option.isNone_some]
          rw [hsplit]
          have hpost2 : ∀ f ∈ post,
              (pureStep env (some eidp) true f).2 = false := by
            intro f hf
            rw [pureStep_true_lastId_indep env (some eidp)
              (alookup st.last_sent_links u2) f]
            exact hpost f hf
          rw [pureRun_second_pass env eidp pubdp pre post ep hnm_pre hidp
            hpdp hsfp hpost2]
          exact applyDelivs_nil env u2 st2
        · exact ih1 u2 hu3
      · intro w hw
        have hw1' : w ∉ us := fun hh => hw (List.mem_cons_of_mem _ hh)
        have hw2' : w ≠ u := fun hh => hw (hh ▸ List.mem_cons_self _ _)
        rw [ih2 w hw1', hled_w w hw2']
      · intro i hi
        rcases ih3 i hi with h | ⟨u2, hu2, hiu⟩
        · rcases hsent_m i h with h2 | h2
          · exact Or.inl h2
          · exact Or.inr ⟨u, List.mem_cons_self _ _, h2⟩
        · exact Or.inr ⟨u2, List.mem_cons_of_mem _ hu2, hiu⟩

/-! ## The second run is a no-op on quiescent feeds -/

theorem run2_nodeliver (env : Env) (snap : String → List Entry) :
    ∀ (us : List String) (st : RunState),
      (∀ u ∈ us, Run2Ready env snap u (alookup st.last_sent_links u)) →
      st.sent_this_run = [] →
      us.foldl (fun s w => processFeed env (snap w) w s) st = st := by
  intro us
  induction us with
  | nil => intro st _ _; rfl
  | cons u us ih =>
    intro st hready hsent
    have h1 : processFeed env (snap u) u st = st :=
      hready u (List.mem_cons_self _ _) st rfl hsent
    have h2 : (u :: us).foldl (fun s w => processFeed env (snap w) w s) st
        = us.foldl (fun s w => processFeed env (snap w) w s)
            (processFeed env (snap u) u st) := rfl
    rw [h2, h1]
    exact ih st (fun w hw => hready w (List.mem_cons_of_mem _ hw)) hsent

/-- C5 (amended): with every delivery confirmed by the channel, all
truthy entry identifiers pairwise distinct across the retrieved windows
of the run, and no feed's initially recorded identifier matching a
window entry that has a parsable timestamp but fails the recency filter,
running the job twice in succession over the same feed snapshot (same
local date and time) delivers nothing on the second run. -/
theorem run_twice_delivers_nothing (env : Env)
    (snap : String → List Entry) (urls : List String)
    (L0 : List (String × String))
    (daily0 : List (Int × List (String × Option String)))
    (hchan : ∀ m pm, env.channel m pm = ChanResp.ok)
    (hids : (allWindowIds env snap (dedupFirst urls)).Nodup)
    (hbound : ∀ u ∈ dedupFirst urls, ∀ e ∈ windowOf env (snap u), ∀ eid,
      entryIdOf e = some eid → alookup L0 u = some eid →
      ∀ d, entry_published_date_in_tz env e = some d →
        sendFlagOf env d = true) :
    (check_news_run env snap urls
      (initialState
        (check_news_run env snap urls
          (initialState L0 daily0)).last_sent_links
        (check_news_run env snap urls
          (initialState L0 daily0)).daily_sent)).delivered = [] := by
  have h1 := run1_ready env snap hchan (dedupFirst urls)
    (initialState L0 daily0) (dedupFirst_nodup urls) hids
    (by intro i _ hmem; simp [initialState] at hmem)
    hbound
  have h2 := run2_nodeliver env snap (dedupFirst urls)
    (initialState
      (check_news_run env snap urls
        (initialState L0 daily0)).last_sent_links
      (check_news_run env snap urls
        (initialState L0 daily0)).daily_sent)
    (fun u hu => h1.1 u hu)
    rfl
  have h3 : check_news_run env snap urls
      (initialState
        (check_news_run env snap urls
          (initialState L0 daily0)).last_sent_links
        (check_news_run env snap urls
          (initialState L0 daily0)).daily_sent)
      = initialState
          (check_news_run env snap urls
            (initialState L0 daily0)).last_sent_links
          (check_news_run env snap urls
            (initialState L0 daily0)).daily_sent := h2
  rw [h3]
  rfl

/-- Witness for the amended C5 at a concrete single-feed snapshot. -/
theorem run_twice_witness :
    (check_news_run envT snapSingleRecent ["u"]
      (initialState
        (check_news_run envT snapSingleRecent ["u"]
          (initialState [] [])).last_sent_links
        (check_news_run envT snapSingleRecent ["u"]
          (initialState [] [])).daily_sent)).delivered = [] :=
  run_twice_delivers_nothing envT snapSingleRecent ["u"] [] []
    (fun _ _ => rfl) (by decide)
    (by intro u hu e he eid hid hl d hpd; simp [alookup] at hl)
